import Mathlib

/-!
Verification development for a fork-join parallel π-approximation program
(`pi_p.c`), its sequential counterpart (`pi.c`), and a single-worker
Fibonacci generator (`fibonacci.c`).

C `double` arithmetic is embedded with exact rational semantics (`ℚ`): every
value computed by these programs (step sizes, midpoints, the integrand
`4 / (1 + x²)`, partial and global sums) is rational, so the embedding is
computable and the algebraic structure of the code is preserved; IEEE-754
rounding is abstracted away. C `int` inputs parsed from the command line are
embedded as `ℤ`; loop counters and indices, which stay in `[0, n]` on every
path the claims consider, are embedded as `ℕ`. `unsigned long long` in the
Fibonacci program is embedded as `ℕ` with explicit reduction `% 2 ^ 64`.
-/

/-- `DatosHilo` from `pi_p.c`: the work item handed to one thread.
`indice_inicio` is the first iteration index (inclusive), `indice_fin` the
last (exclusive), `paso` the sub-interval width `1.0 / n`. -/
structure DatosHilo where
  indice_inicio : Nat
  indice_fin : Nat
  paso : ℚ
deriving DecidableEq, Repr

/-- The partition-building loop of `calcular_pi_paralelo` (pi_p.c lines
197–206): starting from `inicio_actual`, thread `k` of the remaining `rem`
threads receives `[inicio, inicio + bloque + extra)` with `extra = 1` when
`k < resto`, and the next thread starts where this one ends. -/
def construir (paso : ℚ) (bloque resto : Nat) : Nat → Nat → Nat → List DatosHilo
  | _inicio, _k, 0 => []
  | inicio, k, rem + 1 =>
    let extra := if k < resto then 1 else 0
    let fin := inicio + bloque + extra
    ⟨inicio, fin, paso⟩ :: construir paso bloque resto fin (k + 1) rem

/-- The domain partitioner of `pi_p.c`: split `[0, n)` into `h` contiguous
near-equal blocks, with `tam_bloque = n / h` and `resto = n % h`
(pi_p.c lines 194–195), each item carrying `paso = 1.0 / n` (line 179). -/
def particionar (n h : Nat) : List DatosHilo :=
  construir (1 / (n : ℚ)) (n / h) (n % h) 0 0 h

/-- The work item of thread `k`, i.e. `datos_hilos[k]` in `pi_p.c`. -/
def elemento (n h k : Nat) : DatosHilo :=
  (particionar n h).getD k ⟨0, 0, 0⟩

/-- Size of thread `k`'s index range. -/
def tamano (n h k : Nat) : Nat :=
  (elemento n h k).indice_fin - (elemento n h k).indice_inicio

/-- `funcion_integrando` from `pi.c`: `f(x) = 4 / (1 + x*x)`. -/
def funcion_integrando (x : ℚ) : ℚ :=
  4 / (1 + x * x)

/-- `trabajo_suma_parcial` from `pi_p.c` (lines 143–146): iterate `i` from
`indice_inicio` up to (excluding) `indice_fin`, set `x = paso * (i + 0.5)`
and accumulate `4.0 / (1.0 + x * x)` into a local sum starting at `0.0`. -/
def trabajo_suma_parcial (datos : DatosHilo) : ℚ :=
  (List.range' datos.indice_inicio (datos.indice_fin - datos.indice_inicio)).foldl
    (fun suma_local (i : Nat) =>
      let x : ℚ := datos.paso * ((i : ℚ) + 0.5)
      suma_local + 4 / (1 + x * x))
    0

/-- Fate of one worker thread, as observed by the coordinator's join loop:
`exito` — the thread allocated its result cell and returned the partial sum;
`fallo_malloc` — `malloc` failed inside the thread, which then returned
`NULL` (pi_p.c lines 148–153); `fallo_join` — `pthread_join` itself
returned a nonzero code (pi_p.c line 231). -/
inductive DestinoHilo where
  | exito : DestinoHilo
  | fallo_malloc : DestinoHilo
  | fallo_join : DestinoHilo
deriving DecidableEq, Repr

/-- What the coordinator observes when joining one thread: either the join
failed, or it yielded the thread's return pointer (`none` = `NULL`). -/
inductive ResultadoUnion where
  | union_fallida : ResultadoUnion
  | retornado : Option ℚ → ResultadoUnion
deriving DecidableEq, Repr

/-- The observation the coordinator makes for a thread with the given fate
running the given work item: a successful thread returns a pointer to its
partial sum (pi_p.c lines 148–156). -/
def resultado_hilo (d : DestinoHilo) (datos : DatosHilo) : ResultadoUnion :=
  match d with
  | .exito => .retornado (some (trabajo_suma_parcial datos))
  | .fallo_malloc => .retornado none
  | .fallo_join => .union_fallida

/-- `calcular_pi_paralelo` from `pi_p.c` (lines 177–252), parameterised by
the fate of each worker thread. The collection loop (lines 226–246) walks
threads `0..h-1` in order: a failed join is skipped with a warning
(`continue`), a `NULL` return is skipped with a warning, and a returned
partial sum is added to `suma_global`; the result is `paso * suma_global`. -/
def calcular_pi_paralelo_entorno (n h : Nat) (destinos : Nat → DestinoHilo) : ℚ :=
  let paso : ℚ := 1 / (n : ℚ)
  let suma_global : ℚ := (List.range h).foldl
    (fun suma_global k =>
      match resultado_hilo (destinos k) (elemento n h k) with
      | .union_fallida => suma_global
      | .retornado none => suma_global
      | .retornado (some suma_parcial) => suma_global + suma_parcial)
    0
  paso * suma_global

/-- `calcular_pi_paralelo` on the normal path: every thread succeeds. -/
def calcular_pi_paralelo (n h : Nat) : ℚ :=
  calcular_pi_paralelo_entorno n h (fun _ => DestinoHilo.exito)

/-- `calcular_pi_secuencial` from `pi.c` (lines 118–129): midpoint-rule
integration of `funcion_integrando` over `[0, 1)` with `n` sub-intervals. -/
def calcular_pi_secuencial (n : Nat) : ℚ :=
  let paso : ℚ := 1 / (n : ℚ)
  let suma : ℚ := (List.range n).foldl
    (fun suma (i : Nat) => suma + funcion_integrando (paso * ((i : ℚ) + 0.5)))
    0
  paso * suma

/-- Outcome of running `main` of `pi_p.c`: either the program prints the
approximation and exits successfully, or it rejects `n`, prints the
diagnostic plus usage text to stderr, and exits with `EXIT_FAILURE`
(pi_p.c lines 77–82). -/
inductive SalidaPrograma where
  | exito_num : ℚ → SalidaPrograma
  | fallo_uso : SalidaPrograma
deriving DecidableEq, Repr

/-- `main` of `pi_p.c` on parsed argument values `H` and `n` (lines 58–99):
`H ≤ 0` is clamped to `1` with a warning (lines 70–75); `n` outside
`[1, 2147483647]` aborts with the usage message before any computation
(lines 77–82); otherwise the parallel computation runs. -/
def principal (H n : ℤ) : SalidaPrograma :=
  let H' : ℤ := if H ≤ 0 then 1 else H
  if n ≤ 0 ∨ 2147483647 < n then SalidaPrograma.fallo_uso
  else SalidaPrograma.exito_num (calcular_pi_paralelo n.toNat H'.toNat)

/-- Environment for the launch phase: whether `pthread_create` succeeds for
thread `k`, and the fate of each thread that does run. -/
structure Entorno where
  crear : Nat → Bool
  destino : Nat → DestinoHilo

/-- Observable lifecycle actions of the coordinator on the thread pool. -/
inductive Accion where
  | crear_hilo : Nat → Accion
  | unir_hilo : Nat → Accion
deriving DecidableEq, Repr

/-- The launch loop of `calcular_pi_paralelo` (pi_p.c lines 199–223),
recorded as a trace of pool actions: each iteration attempts
`pthread_create` for thread `k`; on failure the loop joins the
already-created threads `0..k-1` and the computation aborts (`some k`). -/
def fase_lanzamiento (crear : Nat → Bool) : Nat → Nat → List Accion × Option Nat
  | _k, 0 => ([], none)
  | k, rem + 1 =>
    if crear k then
      let r := fase_lanzamiento crear (k + 1) rem
      (Accion.crear_hilo k :: r.1, r.2)
    else
      (Accion.crear_hilo k :: (List.range k).map Accion.unir_hilo, some k)

/-- The whole coordinator run under an environment: a launch failure makes
the process `exit(EXIT_FAILURE)` with no numeric result (pi_p.c lines
212–221); otherwise the join/aggregate phase produces the approximation. -/
def coordinador (n h : Nat) (env : Entorno) : Option ℚ :=
  match (fase_lanzamiento env.crear 0 h).2 with
  | some _ => none
  | none => some (calcular_pi_paralelo_entorno n h env.destino)

/-- One array store: `arreglo[i] = v`, over the array-as-function state. -/
def escribir (a : Nat → Nat) (i v : Nat) : Nat → Nat :=
  fun j => if j = i then v else a j

/-- The general-case loop of `trabajador_fibonacci` (fibonacci.c lines
182–184): for `i` from `2` while `i < cantidad`,
`arreglo[i] = arreglo[i-1] + arreglo[i-2]` in `unsigned long long`
arithmetic (wrap-around mod `2^64`). `rem` is the remaining iteration
count `cantidad - i`. -/
def bucle_fibonacci : Nat → Nat → (Nat → Nat) → (Nat → Nat)
  | 0, _i, a => a
  | rem + 1, i, a =>
    bucle_fibonacci rem (i + 1) (escribir a i ((a (i - 1) + a (i - 2)) % 2 ^ 64))

/-- `trabajador_fibonacci` from `fibonacci.c` (lines 163–187) acting on the
shared array: exit at once for `cantidad ≤ 0`; write the base cases
`arreglo[0] = 0` (when `cantidad ≥ 1`) and `arreglo[1] = 1` (when
`cantidad ≥ 2`); then run the iterative loop from `i = 2`. -/
def trabajador_fibonacci (cantidad : Nat) (arreglo : Nat → Nat) : Nat → Nat :=
  if cantidad = 0 then arreglo
  else
    let a1 := if 1 ≤ cantidad then escribir arreglo 0 0 else arreglo
    let a2 := if 2 ≤ cantidad then escribir a1 1 1 else a1
    bucle_fibonacci (cantidad - 2) 2 a2

/-! ### Partition structure lemmas -/

/-- Closed form of the partition boundaries: thread `k` starts at
`k * (n / h) + min k (n % h)`. -/
def borde (n h k : Nat) : Nat :=
  k * (n / h) + min k (n % h)

lemma construir_length (paso : ℚ) (bloque resto : Nat) :
    ∀ (rem inicio k : Nat), (construir paso bloque resto inicio k rem).length = rem := by
  intro rem
  induction rem with
  | zero => intro inicio k; rfl
  | succ m ih => intro inicio k; simp [construir, ih]

lemma particionar_length (n h : Nat) : (particionar n h).length = h :=
  construir_length _ _ _ _ _ _

lemma min_succ_eq (k r : Nat) :
    min (k + 1) r = min k r + (if k < r then 1 else 0) := by
  split <;> omega

lemma construir_getD (paso : ℚ) (bloque resto : Nat) :
    ∀ (rem k j : Nat), j < rem →
      (construir paso bloque resto (k * bloque + min k resto) k rem).getD j ⟨0, 0, 0⟩ =
        ⟨(k + j) * bloque + min (k + j) resto,
         (k + j + 1) * bloque + min (k + j + 1) resto, paso⟩ := by
  intro rem
  induction rem with
  | zero => intro k j hj; exact absurd hj (Nat.not_lt_zero j)
  | succ m ih =>
    intro k j hj
    have hfin : k * bloque + min k resto + bloque + (if k < resto then 1 else 0)
        = (k + 1) * bloque + min (k + 1) resto := by
      rw [min_succ_eq, Nat.succ_mul]
      omega
    cases j with
    | zero =>
      simp only [construir, List.getD_cons_zero]
      rw [DatosHilo.mk.injEq]
      refine ⟨by rw [Nat.add_zero], ?_, rfl⟩
      rw [Nat.add_zero, Nat.succ_mul, min_succ_eq]
      omega
    | succ j' =>
      simp only [construir, List.getD_cons_succ]
      rw [hfin]
      have h1 : k + (j' + 1) = (k + 1) + j' := by omega
      rw [h1]
      exact ih (k + 1) j' (by omega)

lemma elemento_eq (n h k : Nat) (hk : k < h) :
    elemento n h k = ⟨borde n h k, borde n h (k + 1), 1 / (n : ℚ)⟩ := by
  have h0 := construir_getD (1 / (n : ℚ)) (n / h) (n % h) h 0 k hk
  simpa [elemento, particionar, borde] using h0

lemma borde_zero (n h : Nat) : borde n h 0 = 0 := by
  simp [borde]

lemma borde_mono (n h : Nat) : Monotone (borde n h) := by
  intro a b hab
  unfold borde
  have h1 : a * (n / h) ≤ b * (n / h) := Nat.mul_le_mul_right _ hab
  omega

lemma borde_total (n h : Nat) (hh : 0 < h) : borde n h h = n := by
  unfold borde
  rw [Nat.min_eq_right (le_of_lt (Nat.mod_lt n hh))]
  exact Nat.div_add_mod n h

lemma tamano_eq (n h k : Nat) (hk : k < h) :
    tamano n h k = n / h + (if k < n % h then 1 else 0) := by
  unfold tamano
  rw [elemento_eq n h k hk]
  show borde n h (k + 1) - borde n h k = _
  unfold borde
  generalize n / h = B
  generalize n % h = R
  rw [Nat.succ_mul, min_succ_eq]
  omega

/-! ### Accumulation-loop lemmas -/

lemma foldl_add_eq (g : Nat → ℚ) :
    ∀ (l : List Nat) (acc : ℚ),
      l.foldl (fun s i => s + g i) acc = acc + (l.map g).sum := by
  intro l
  induction l with
  | nil => intro acc; simp
  | cons x xs ih => intro acc; simp [ih, add_assoc]

lemma map_range'_sum (g : Nat → ℚ) :
    ∀ (len s : Nat), ((List.range' s len).map g).sum = ∑ i in Finset.Ico s (s + len), g i := by
  intro len
  induction len with
  | zero => intro s; simp
  | succ m ih =>
    intro s
    rw [List.range'_succ, List.map_cons, List.sum_cons, ih (s + 1)]
    rw [(by omega : s + (m + 1) = s + 1 + m)]
    rw [Finset.sum_eq_sum_Ico_succ_bot (show s < s + 1 + m by omega) g]

lemma trabajo_eq_sum (inicio fin : Nat) (paso : ℚ) (hle : inicio ≤ fin) :
    trabajo_suma_parcial ⟨inicio, fin, paso⟩ =
      ∑ i in Finset.Ico inicio fin, funcion_integrando (paso * ((i : ℚ) + 0.5)) := by
  have h1 : trabajo_suma_parcial ⟨inicio, fin, paso⟩ =
      0 + ((List.range' inicio (fin - inicio)).map
        (fun i : Nat => funcion_integrando (paso * ((i : ℚ) + 0.5)))).sum := by
    rw [trabajo_suma_parcial]
    exact foldl_add_eq _ _ 0
  rw [h1, zero_add, map_range'_sum]
  rw [(by omega : inicio + (fin - inicio) = fin)]

lemma suma_ite_filter (p : Nat → Prop) [DecidablePred p] (w : Nat → ℚ) :
    ∀ l : List Nat,
      (l.map (fun k => if p k then w k else 0)).sum
        = ((l.filter (fun k => decide (p k))).map w).sum := by
  intro l
  induction l with
  | nil => rfl
  | cons x xs ih => by_cases hx : p x <;> simp [hx, ih, List.filter_cons]

lemma foldl_coleccion (n h : Nat) (destinos : Nat → DestinoHilo)
    (l : List Nat) (acc : ℚ) :
    l.foldl (fun s k =>
      match resultado_hilo (destinos k) (elemento n h k) with
      | .union_fallida => s
      | .retornado none => s
      | .retornado (some v) => s + v) acc
    = acc + ((l.filter (fun k => decide (destinos k = DestinoHilo.exito))).map
        (fun k => trabajo_suma_parcial (elemento n h k))).sum := by
  have h1 : (fun (s : ℚ) (k : Nat) =>
      match resultado_hilo (destinos k) (elemento n h k) with
      | ResultadoUnion.union_fallida => s
      | ResultadoUnion.retornado none => s
      | ResultadoUnion.retornado (some v) => s + v) =
      fun s k => s + (if destinos k = DestinoHilo.exito
        then trabajo_suma_parcial (elemento n h k) else 0) := by
    funext s k
    cases hk : destinos k <;> simp [resultado_hilo, hk]
  rw [h1, foldl_add_eq, suma_ite_filter]

/-! ### Aggregate equals the sequential midpoint sum -/

lemma list_range_sum (g : Nat → ℚ) (m : Nat) :
    ((List.range m).map g).sum = ∑ k in Finset.range m, g k := by
  induction m with
  | zero => rfl
  | succ t ih => rw [List.range_succ, Finset.sum_range_succ, ← ih]; simp

lemma map_range_getD (l : List DatosHilo) (d : DatosHilo) :
    (List.range l.length).map (fun k => l.getD k d) = l := by
  apply List.ext_getElem
  · simp
  · intro i h1 h2
    simp only [List.getElem_map, List.getElem_range]
    rw [List.getD_eq_getElem l d h2]

lemma suma_bordes (n h : Nat) (g : Nat → ℚ) :
    ∀ m : Nat,
      ∑ k in Finset.range m, (∑ i in Finset.Ico (borde n h k) (borde n h (k + 1)), g i)
        = ∑ i in Finset.Ico 0 (borde n h m), g i := by
  intro m
  induction m with
  | zero => simp [borde_zero]
  | succ t ih =>
    rw [Finset.sum_range_succ, ih,
      Finset.sum_Ico_consecutive g (Nat.zero_le _) (borde_mono n h (Nat.le_succ t))]

lemma entorno_suma_exitos (n h : Nat) (destinos : Nat → DestinoHilo) :
    calcular_pi_paralelo_entorno n h destinos =
      (1 / (n : ℚ)) *
        (((List.range h).filter (fun k => decide (destinos k = DestinoHilo.exito))).map
          (fun k => trabajo_suma_parcial (elemento n h k))).sum := by
  rw [calcular_pi_paralelo_entorno]
  rw [foldl_coleccion n h destinos (List.range h) 0, zero_add]

lemma paralelo_suma_rango (n h : Nat) :
    calcular_pi_paralelo n h =
      (1 / (n : ℚ)) *
        ((List.range h).map (fun k => trabajo_suma_parcial (elemento n h k))).sum := by
  rw [calcular_pi_paralelo, entorno_suma_exitos]
  have hfil : (List.range h).filter
      (fun _ => decide ((DestinoHilo.exito : DestinoHilo) = DestinoHilo.exito)) = List.range h :=
    List.filter_eq_self.mpr (fun a _ => decide_eq_true rfl)
  rw [hfil]

lemma secuencial_suma (n : Nat) :
    calcular_pi_secuencial n =
      (1 / (n : ℚ)) *
        ∑ i in Finset.range n, funcion_integrando ((1 / (n : ℚ)) * ((i : ℚ) + 0.5)) := by
  rw [calcular_pi_secuencial]
  rw [foldl_add_eq (fun i : Nat => funcion_integrando ((1 / (n : ℚ)) * ((i : ℚ) + 0.5)))
    (List.range n) 0, zero_add, list_range_sum]

lemma paralelo_eq_secuencial (n h : Nat) (hh : 0 < h) :
    calcular_pi_paralelo n h = calcular_pi_secuencial n := by
  rw [paralelo_suma_rango, secuencial_suma, list_range_sum]
  congr 1
  have hcada : ∀ k ∈ Finset.range h,
      trabajo_suma_parcial (elemento n h k) =
        ∑ i in Finset.Ico (borde n h k) (borde n h (k + 1)),
          funcion_integrando ((1 / (n : ℚ)) * ((i : ℚ) + 0.5)) := by
    intro k hk
    rw [Finset.mem_range] at hk
    rw [elemento_eq n h k hk]
    exact trabajo_eq_sum _ _ _ (borde_mono n h (Nat.le_succ k))
  rw [Finset.sum_congr rfl hcada, suma_bordes n h _ h, borde_total n h hh,
    Finset.range_eq_Ico]

/-! ### Total partition size -/

lemma suma_bordes_tel (n h : Nat) :
    ∀ m : Nat, ∑ k in Finset.range m, (borde n h (k + 1) - borde n h k) = borde n h m := by
  intro m
  induction m with
  | zero => simp [borde_zero]
  | succ t ih =>
    rw [Finset.sum_range_succ, ih]
    have hmono : borde n h t ≤ borde n h (t + 1) := borde_mono n h (by omega)
    omega

lemma suma_tamanos (n h : Nat) (hh : 0 < h) :
    ∑ k in Finset.range h, tamano n h k = n := by
  have hcada : ∀ k ∈ Finset.range h, tamano n h k = borde n h (k + 1) - borde n h k := by
    intro k hk
    rw [Finset.mem_range] at hk
    rw [tamano, elemento_eq n h k hk]
  rw [Finset.sum_congr rfl hcada, suma_bordes_tel, borde_total n h hh]

/-! ### Launch-failure behaviour -/

lemma fase_lanzamiento_falla (crear : Nat → Bool) :
    ∀ (t s rem : Nat), t < rem → crear (s + t) = false →
      (∀ j, j < t → crear (s + j) = true) →
      fase_lanzamiento crear s rem =
        ((List.range' s (t + 1)).map Accion.crear_hilo ++
          (List.range (s + t)).map Accion.unir_hilo, some (s + t)) := by
  intro t
  induction t with
  | zero =>
    intro s rem hrem hfail _
    match rem, hrem with
    | m + 1, _ =>
      rw [Nat.add_zero] at hfail
      rw [fase_lanzamiento, if_neg (by rw [hfail]; exact Bool.false_ne_true)]
      rw [Nat.add_zero]
      rfl
  | succ t' ih =>
    intro s rem hrem hfail hok
    match rem, hrem with
    | m + 1, _ =>
      have hs : crear s = true := by
        have := hok 0 (Nat.succ_pos t')
        rwa [Nat.add_zero] at this
      rw [fase_lanzamiento, if_pos hs]
      have harg1 : s + (t' + 1) = (s + 1) + t' := by omega
      have h1 := ih (s + 1) m (by omega) (by rw [← harg1]; exact hfail)
        (fun j hj => by
          have := hok (j + 1) (by omega)
          rwa [(by omega : s + (j + 1) = s + 1 + j)] at this)
      rw [h1]
      rw [List.range'_succ, List.map_cons]
      rw [harg1]
      rfl

/-! ### Fibonacci worker invariant -/

lemma bucle_fibonacci_invariante :
    ∀ (rem i : Nat) (a : Nat → Nat), 2 ≤ i →
      (∀ j, j < i → a j = Nat.fib j % 2 ^ 64) →
      (∀ j, j < i + rem → bucle_fibonacci rem i a j = Nat.fib j % 2 ^ 64) ∧
      (∀ j, i + rem ≤ j → bucle_fibonacci rem i a j = a j) := by
  intro rem
  induction rem with
  | zero =>
    intro i a _ hinv
    exact ⟨fun j hj => hinv j (by omega), fun j _ => rfl⟩
  | succ m ih =>
    intro i a hi hinv
    obtain ⟨t, rfl⟩ : ∃ t, i = t + 2 := ⟨i - 2, by omega⟩
    have hval : (a (t + 2 - 1) + a (t + 2 - 2)) % 2 ^ 64 = Nat.fib (t + 2) % 2 ^ 64 := by
      have h1 : a (t + 2 - 1) = Nat.fib (t + 1) % 2 ^ 64 := by
        rw [(by omega : t + 2 - 1 = t + 1)]
        exact hinv (t + 1) (by omega)
      have h2 : a (t + 2 - 2) = Nat.fib t % 2 ^ 64 := by
        rw [(by omega : t + 2 - 2 = t)]
        exact hinv t (by omega)
      rw [h1, h2, ← Nat.add_mod, Nat.add_comm (Nat.fib (t + 1)) (Nat.fib t),
        ← Nat.fib_add_two]
    have hinv' : ∀ j, j < t + 2 + 1 →
        escribir a (t + 2) ((a (t + 2 - 1) + a (t + 2 - 2)) % 2 ^ 64) j
          = Nat.fib j % 2 ^ 64 := by
      intro j hj
      by_cases hji : j = t + 2
      · subst hji
        rw [escribir, if_pos rfl]
        exact hval
      · rw [escribir, if_neg hji]
        exact hinv j (by omega)
    have hrec := ih (t + 2 + 1)
      (escribir a (t + 2) ((a (t + 2 - 1) + a (t + 2 - 2)) % 2 ^ 64)) (by omega) hinv'
    constructor
    · intro j hj
      rw [bucle_fibonacci]
      exact hrec.1 j (by omega)
    · intro j hj
      rw [bucle_fibonacci, hrec.2 j (by omega), escribir, if_neg (by omega)]

/-! ### Claim theorems -/

/-- Claim C1: for every `n > 0` and `h > 0` the partitioner produces `h`
work items that are pairwise disjoint, contiguous (each item's end is the
next item's start), start at `0`, end at `n`, and each have size `bloque`
or `bloque + 1` with `bloque = n / h`; exactly the first `n % h` items
have size `bloque + 1`, so no item is empty when `h ≤ n`, and when
`h > n` exactly `h - n` items are empty ranges. -/
theorem particion_completa (n h : Nat) (hn : 0 < n) (hh : 0 < h) :
    (particionar n h).length = h ∧
    (elemento n h 0).indice_inicio = 0 ∧
    (elemento n h (h - 1)).indice_fin = n ∧
    (∀ k, k + 1 < h →
      (elemento n h k).indice_fin = (elemento n h (k + 1)).indice_inicio) ∧
    (∀ i j, i < j → j < h →
      Disjoint
        (Finset.Ico (elemento n h i).indice_inicio (elemento n h i).indice_fin)
        (Finset.Ico (elemento n h j).indice_inicio (elemento n h j).indice_fin)) ∧
    (∀ k, k < h → tamano n h k = n / h ∨ tamano n h k = n / h + 1) ∧
    (∀ k, k < h → (tamano n h k = n / h + 1 ↔ k < n % h)) ∧
    (h ≤ n → ∀ k, k < h → 0 < tamano n h k) ∧
    (n < h → ((Finset.range h).filter (fun k => tamano n h k = 0)).card = h - n) := by
  refine ⟨particionar_length n h, ?_, ?_, ?_, ?_, ?_, ?_, ?_, ?_⟩
  · rw [elemento_eq n h 0 hh]
    exact borde_zero n h
  · rw [elemento_eq n h (h - 1) (by omega)]
    show borde n h (h - 1 + 1) = n
    rw [(by omega : h - 1 + 1 = h)]
    exact borde_total n h hh
  · intro k hk
    rw [elemento_eq n h k (by omega), elemento_eq n h (k + 1) hk]
  · intro i j hij hj
    rw [elemento_eq n h i (by omega), elemento_eq n h j hj]
    dsimp only
    rw [Finset.disjoint_left]
    intro x hx hx2
    rw [Finset.mem_Ico] at hx hx2
    have hle : borde n h (i + 1) ≤ borde n h j := borde_mono n h (by omega)
    omega
  · intro k hk
    rw [tamano_eq n h k hk]
    split
    · right; rfl
    · left; rfl
  · intro k hk
    rw [tamano_eq n h k hk]
    split
    · simp_all
    · simp_all
  · intro hhn k hk
    rw [tamano_eq n h k hk]
    have h1 : 1 ≤ n / h := (Nat.one_le_div_iff hh).mpr hhn
    split <;> omega
  · intro hnh
    have hbloque : n / h = 0 := Nat.div_eq_of_lt hnh
    have hresto : n % h = n := Nat.mod_eq_of_lt hnh
    have hfil : (Finset.range h).filter (fun k => tamano n h k = 0)
        = (Finset.range h).filter (fun k => n ≤ k) := by
      apply Finset.filter_congr
      intro k hk
      rw [Finset.mem_range] at hk
      rw [tamano_eq n h k hk, hbloque, hresto]
      split <;> omega
    have hsd : (Finset.range h).filter (fun k => n ≤ k)
        = Finset.range h \ Finset.range n := by
      ext x
      simp only [Finset.mem_filter, Finset.mem_sdiff, Finset.mem_range]
      omega
    rw [hfil, hsd, Finset.card_sdiff (Finset.range_subset.mpr (le_of_lt hnh)),
      Finset.card_range, Finset.card_range]

/-- Witness for `particion_completa` at `n = 5`, `h = 3`. -/
theorem particion_completa_testigo :
    (particionar 5 3).length = 3 ∧
    (elemento 5 3 0).indice_inicio = 0 ∧
    (elemento 5 3 (3 - 1)).indice_fin = 5 ∧
    (∀ k, k + 1 < 3 →
      (elemento 5 3 k).indice_fin = (elemento 5 3 (k + 1)).indice_inicio) ∧
    (∀ i j, i < j → j < 3 →
      Disjoint
        (Finset.Ico (elemento 5 3 i).indice_inicio (elemento 5 3 i).indice_fin)
        (Finset.Ico (elemento 5 3 j).indice_inicio (elemento 5 3 j).indice_fin)) ∧
    (∀ k, k < 3 → tamano 5 3 k = 5 / 3 ∨ tamano 5 3 k = 5 / 3 + 1) ∧
    (∀ k, k < 3 → (tamano 5 3 k = 5 / 3 + 1 ↔ k < 5 % 3)) ∧
    (3 ≤ 5 → ∀ k, k < 3 → 0 < tamano 5 3 k) ∧
    (5 < 3 → ((Finset.range 3).filter (fun k => tamano 5 3 k = 0)).card = 3 - 5) :=
  particion_completa 5 3 (by decide) (by decide)

/-- Claim C2: when `n > 0`, `h > 0` and every worker reports success, the
coordinator returns `paso * (sum of the h partial sums)` with
`paso = 1 / n`, the partial sums taken in worker-index order over the
partitioner's list. -/
theorem agregacion_exitosa (n h : Nat) (hn : 0 < n) (hh : 0 < h)
    (destinos : Nat → DestinoHilo) (hok : ∀ k, destinos k = DestinoHilo.exito) :
    calcular_pi_paralelo_entorno n h destinos =
      (1 / (n : ℚ)) * ((particionar n h).map trabajo_suma_parcial).sum := by
  rw [entorno_suma_exitos]
  have hfil : (List.range h).filter (fun k => decide (destinos k = DestinoHilo.exito))
      = List.range h :=
    List.filter_eq_self.mpr (fun a _ => decide_eq_true (hok a))
  rw [hfil]
  congr 1
  conv_rhs => rw [← map_range_getD (particionar n h) ⟨0, 0, 0⟩]
  rw [List.map_map, particionar_length]
  rfl

/-- Witness for `agregacion_exitosa` at `n = 4`, `h = 3`, all workers
successful. -/
theorem agregacion_exitosa_testigo :
    calcular_pi_paralelo_entorno 4 3 (fun _ => DestinoHilo.exito) =
      (1 / (4 : ℚ)) * ((particionar 4 3).map trabajo_suma_parcial).sum :=
  agregacion_exitosa 4 3 (by decide) (by decide) _ (fun _ => rfl)

/-- Claim C3: for every work item with `inicio ≤ fin`, a worker that
succeeds reports its value (`retornado (some …)`, the `ok = true` case),
and that value is `∑_{i = inicio}^{fin - 1} f(paso * (i + 0.5))` with
`f(x) = 4 / (1 + x²)`, accumulated in increasing index order in the local
accumulator; an empty range (`inicio = fin`) yields `0`. -/
theorem valor_suma_parcial (inicio fin : Nat) (paso : ℚ) (hle : inicio ≤ fin) :
    resultado_hilo DestinoHilo.exito ⟨inicio, fin, paso⟩ =
      ResultadoUnion.retornado (some (trabajo_suma_parcial ⟨inicio, fin, paso⟩)) ∧
    trabajo_suma_parcial ⟨inicio, fin, paso⟩ =
      ∑ i in Finset.Ico inicio fin, funcion_integrando (paso * ((i : ℚ) + 0.5)) ∧
    (inicio = fin → trabajo_suma_parcial ⟨inicio, fin, paso⟩ = 0) := by
  refine ⟨rfl, trabajo_eq_sum inicio fin paso hle, ?_⟩
  intro he
  subst he
  rw [trabajo_eq_sum inicio inicio paso le_rfl, Finset.Ico_self, Finset.sum_empty]

/-- Witness for `valor_suma_parcial` at the item `[2, 5)` with
`paso = 1/8`. -/
theorem valor_suma_parcial_testigo :
    resultado_hilo DestinoHilo.exito ⟨2, 5, (1 : ℚ) / 8⟩ =
      ResultadoUnion.retornado (some (trabajo_suma_parcial ⟨2, 5, (1 : ℚ) / 8⟩)) ∧
    trabajo_suma_parcial ⟨2, 5, (1 : ℚ) / 8⟩ =
      ∑ i in Finset.Ico (2 : ℕ) 5, funcion_integrando (((1 : ℚ) / 8) * ((i : ℚ) + 0.5)) ∧
    (2 = 5 → trabajo_suma_parcial ⟨2, 5, (1 : ℚ) / 8⟩ = 0) :=
  valor_suma_parcial 2 5 ((1 : ℚ) / 8) (by decide)

/-- Claim C4: every command-line `n` that is non-positive or greater than
`2^31 - 1` is rejected before any computation: the run ends in the
usage-failure outcome and produces no numeric result. -/
theorem rechazo_n_invalido (H n : ℤ) (hn : n ≤ 0 ∨ 2147483647 < n) :
    principal H n = SalidaPrograma.fallo_uso := by
  simp only [principal]
  rw [if_pos hn]

/-- Witness for `rechazo_n_invalido` at `n = 0`, `n = -5` and `n = 2^31`
(with `H = 4`). -/
theorem rechazo_n_invalido_testigo :
    principal 4 0 = SalidaPrograma.fallo_uso ∧
    principal 4 (-5) = SalidaPrograma.fallo_uso ∧
    principal 4 (2 ^ 31) = SalidaPrograma.fallo_uso :=
  ⟨rechazo_n_invalido 4 0 (Or.inl (by decide)),
   rechazo_n_invalido 4 (-5) (Or.inl (by decide)),
   rechazo_n_invalido 4 (2 ^ 31) (Or.inr (by decide))⟩

/-- Claim C5: a worker-count argument `H ≤ 0` (including the `0` that
`atoi` yields on non-numeric input) is not fatal: the run behaves exactly
as if `H = 1` had been supplied, and for valid `n` it completes with the
`h = 1` computation's result. -/
theorem h_invalido_degradado (H n : ℤ) (hH : H ≤ 0) :
    principal H n = principal 1 n ∧
    (1 ≤ n → n ≤ 2147483647 →
      principal H n = SalidaPrograma.exito_num (calcular_pi_paralelo n.toNat 1)) := by
  have h1 : principal H n = principal 1 n := by
    simp only [principal]
    rw [if_pos hH, if_neg (by omega : ¬ (1 : ℤ) ≤ 0)]
  refine ⟨h1, fun ha hb => ?_⟩
  rw [h1]
  simp only [principal]
  rw [if_neg (by omega : ¬ (1 : ℤ) ≤ 0),
    if_neg (by omega : ¬ (n ≤ 0 ∨ 2147483647 < n))]
  norm_num

/-- Witness for `h_invalido_degradado` at `H = -3`, `n = 2`. -/
theorem h_invalido_degradado_testigo :
    principal (-3) 2 = principal 1 2 ∧
    (1 ≤ (2 : ℤ) → (2 : ℤ) ≤ 2147483647 →
      principal (-3) 2 = SalidaPrograma.exito_num (calcular_pi_paralelo (2 : ℤ).toNat 1)) :=
  h_invalido_degradado (-3) 2 (by decide)

/-- Claim C6: if launching thread `k` fails while threads `0..k-1` were
launched, the coordinator's launch phase attempts creations `0..k`, then
joins exactly the already-launched threads `0..k-1`, and the whole run
aborts with no numeric result. -/
theorem fallo_lanzamiento_aborta (n h k : Nat) (env : Entorno) (hk : k < h)
    (hfail : env.crear k = false) (hok : ∀ j, j < k → env.crear j = true) :
    fase_lanzamiento env.crear 0 h =
      ((List.range (k + 1)).map Accion.crear_hilo ++
        (List.range k).map Accion.unir_hilo, some k) ∧
    coordinador n h env = none := by
  have hf := fase_lanzamiento_falla env.crear k 0 h hk
    (by rw [Nat.zero_add]; exact hfail)
    (fun j hj => by rw [Nat.zero_add]; exact hok j hj)
  rw [Nat.zero_add] at hf
  constructor
  · rw [hf, List.range_eq_range', List.range_eq_range']
  · rw [coordinador, hf]

/-- Witness for `fallo_lanzamiento_aborta` with creation failing at
thread `2` of `5`. -/
theorem fallo_lanzamiento_aborta_testigo :
    fase_lanzamiento (fun j => decide (j ≠ 2)) 0 5 =
      ((List.range (2 + 1)).map Accion.crear_hilo ++
        (List.range 2).map Accion.unir_hilo, some 2) ∧
    coordinador 10 5 ⟨fun j => decide (j ≠ 2), fun _ => DestinoHilo.exito⟩ = none :=
  fallo_lanzamiento_aborta 10 5 2 ⟨fun j => decide (j ≠ 2), fun _ => DestinoHilo.exito⟩
    (by decide) (by decide)
    (fun j hj => by rcases (by omega : j = 0 ∨ j = 1) with rfl | rfl <;> rfl)

/-- Claim C7: task-local failures never abort the run: under any
assignment of fates (worker `malloc` failure, join failure, success), the
coordinator returns `paso` times the sum of exactly the successful
workers' partial sums — with one failed worker out of `h`, only the
`h - 1` successful contributions are summed and the result is a plain
rational value, not an error. -/
theorem resiliencia_fallo_parcial (n h : Nat) (hn : 0 < n) (hh : 0 < h)
    (destinos : Nat → DestinoHilo) :
    calcular_pi_paralelo_entorno n h destinos =
      (1 / (n : ℚ)) *
        (((List.range h).filter (fun k => decide (destinos k = DestinoHilo.exito))).map
          (fun k => trabajo_suma_parcial (elemento n h k))).sum :=
  entorno_suma_exitos n h destinos

/-- Witness for `resiliencia_fallo_parcial` at `n = 4`, `h = 2`, with
worker `0` failing to allocate its result. -/
theorem resiliencia_fallo_parcial_testigo :
    calcular_pi_paralelo_entorno 4 2
        (fun k => if k = 0 then DestinoHilo.fallo_malloc else DestinoHilo.exito) =
      (1 / (4 : ℚ)) *
        (((List.range 2).filter (fun k => decide
            ((fun k => if k = 0 then DestinoHilo.fallo_malloc else DestinoHilo.exito) k
              = DestinoHilo.exito))).map
          (fun k => trabajo_suma_parcial (elemento 4 2 k))).sum :=
  resiliencia_fallo_parcial 4 2 (by decide) (by decide)
    (fun k => if k = 0 then DestinoHilo.fallo_malloc else DestinoHilo.exito)

/-- Claim C8: for `h = 1` the partitioner yields exactly one work item
equal to `[0, n)`, and the parallel coordinator's `h = 1` result equals
the sequential routine's result for the same `n` — in this exact-rational
embedding the two agree exactly, which is within any floating-point
tolerance. -/
theorem paralelo_h1_refina_secuencial (n : Nat) (hn : 0 < n) :
    particionar n 1 = [⟨0, n, 1 / (n : ℚ)⟩] ∧
    calcular_pi_paralelo n 1 = calcular_pi_secuencial n := by
  constructor
  · show construir (1 / (n : ℚ)) (n / 1) (n % 1) 0 0 1 = _
    rw [Nat.div_one, Nat.mod_one]
    simp [construir]
  · exact paralelo_eq_secuencial n 1 Nat.one_pos

/-- Witness for `paralelo_h1_refina_secuencial` at `n = 4`. -/
theorem paralelo_h1_refina_secuencial_testigo :
    particionar 4 1 = [⟨0, 4, 1 / (4 : ℚ)⟩] ∧
    calcular_pi_paralelo 4 1 = calcular_pi_secuencial 4 :=
  paralelo_h1_refina_secuencial 4 (by decide)

/-- Claim C9: for `n = 1` and any `h ≥ 1` the computation evaluates the
integrand at exactly one midpoint (the partition sizes sum to `1`) and
returns `f(0.5) * 1.0 = 3.2`. -/
theorem n_uno_valor (h : Nat) (hh : 1 ≤ h) :
    (∑ k in Finset.range h, tamano 1 h k) = 1 ∧
    calcular_pi_paralelo 1 h = funcion_integrando 0.5 * 1 ∧
    calcular_pi_paralelo 1 h = 3.2 := by
  refine ⟨suma_tamanos 1 h hh, ?_, ?_⟩
  · rw [paralelo_eq_secuencial 1 h hh]
    norm_num [calcular_pi_secuencial, (show List.range 1 = [0] from rfl),
      List.foldl_cons, List.foldl_nil, funcion_integrando]
  · rw [paralelo_eq_secuencial 1 h hh]
    norm_num [calcular_pi_secuencial, (show List.range 1 = [0] from rfl),
      List.foldl_cons, List.foldl_nil, funcion_integrando]

/-- Witness for `n_uno_valor` at `h = 5`. -/
theorem n_uno_valor_testigo :
    (∑ k in Finset.range 5, tamano 1 5 k) = 1 ∧
    calcular_pi_paralelo 1 5 = funcion_integrando 0.5 * 1 ∧
    calcular_pi_paralelo 1 5 = 3.2 :=
  n_uno_valor 5 (by decide)

/-- Claim C10: for every `N ≥ 1` and initial array contents, after the
Fibonacci worker runs, cells `0..N-1` hold the first `N` Fibonacci numbers
modulo `2^64` in order (`F(0) = 0`, `F(1) = 1`,
`F(i) = (F(i-1) + F(i-2)) mod 2^64`), and no other cell is written. -/
theorem fibonacci_correcto (N : Nat) (hN : 1 ≤ N) (a : Nat → Nat) :
    (∀ i, i < N → trabajador_fibonacci N a i = Nat.fib i % 2 ^ 64) ∧
    (∀ j, N ≤ j → trabajador_fibonacci N a j = a j) := by
  have hdef : trabajador_fibonacci N a =
      bucle_fibonacci (N - 2) 2
        (if 2 ≤ N then escribir (escribir a 0 0) 1 1 else escribir a 0 0) := by
    rw [trabajador_fibonacci, if_neg (by omega : ¬ N = 0), if_pos hN]
  by_cases h2 : 2 ≤ N
  · rw [hdef, if_pos h2]
    have hinv : ∀ j, j < 2 → escribir (escribir a 0 0) 1 1 j = Nat.fib j % 2 ^ 64 := by
      intro j hj
      rcases (by omega : j = 0 ∨ j = 1) with rfl | rfl <;> rfl
    have hrec := bucle_fibonacci_invariante (N - 2) 2 _ le_rfl hinv
    constructor
    · intro i hi
      exact hrec.1 i (by omega)
    · intro j hj
      rw [hrec.2 j (by omega)]
      show (if j = 1 then 1 else if j = 0 then 0 else a j) = a j
      rw [if_neg (by omega), if_neg (by omega)]
  · have hN1 : N = 1 := by omega
    subst hN1
    rw [hdef, if_neg h2]
    constructor
    · intro i hi
      have hi0 : i = 0 := by omega
      subst hi0
      rfl
    · intro j hj
      show (if j = 0 then 0 else a j) = a j
      rw [if_neg (by omega)]

/-- Witness for `fibonacci_correcto` at `N = 6` over an array initially
filled with `99`. -/
theorem fibonacci_correcto_testigo :
    (∀ i, i < 6 → trabajador_fibonacci 6 (fun _ => 99) i = Nat.fib i % 2 ^ 64) ∧
    (∀ j, 6 ≤ j → trabajador_fibonacci 6 (fun _ => 99) j = 99) :=
  fibonacci_correcto 6 (by decide) (fun _ => 99)
